import Mathlib

/-!
Verification of the NASLib random-search optimizer
(`naslib/optimizers/discrete/rs/optimizer.py`).

The module is a thin stateful loop (`RandomSearch`) over two external
collaborators: a graph-based search space (cloned, discretized and
sampled from by `sample_random_architecture`) and a benchmark oracle
(`arch.query`).  We embed the module shallowly:

* Python objects live on an explicit heap (`Heap` := list of `Graph`
  values addressed by index); `clone` allocates a fresh address, so
  mutation/non-mutation claims are expressible.
* `np.random.randint` is modelled by `randint`, fed from an explicit
  stream of draws; it fails (`none`) exactly when the bound is zero,
  as the NumPy call raises there.
* Fallible Python operations (attribute access on unset attributes,
  out-of-range indexing, `max` of an empty sequence, `assert`) return
  `Option`/`none`.
* Accuracies and other metric values are modelled as integers: the
  code only ever compares them, so any linear order is faithful.
-/

/-- Benchmark metrics, from `naslib.search_spaces.core.query_metrics.Metric`
(only the members referenced by the optimizer). -/
inductive Metric where
  | VAL_ACCURACY
  | TRAIN_ACCURACY
  | TRAIN_LOSS
  | VAL_LOSS
  | RAW
deriving DecidableEq, Repr

/-- The `op` attribute of edge data: either still a list of candidate
primitives, or a single primitive after discretization.  Primitives are
opaque and modelled by identifiers. -/
inductive OpField where
  | list (ops : List Nat)
  | single (o : Nat)
deriving DecidableEq, Repr

/-- Edge data of the architecture graph.  `op_index` and `primitives`
start unset (`none`), matching unset Python attributes.  `scopeTag`
records which scope the edge belongs to (used by `update_edges`). -/
structure EdgeData where
  scopeTag : String
  op : OpField
  op_index : Option Nat
  primitives : Option (List Nat)
deriving DecidableEq, Repr

/-- Modelled from the spec: the architecture/search-space graph object is
owned by the external search-space library; only the pieces the optimizer
reads are kept.  `QUERYABLE` and `OPTIMIZER_SCOPE` are the class attributes
read by `adapt_search_space`; `edges` are the edges visited by
`update_edges`; `weights` stands for the (never trained) architecture
weights; `prepared` records that `prepare_discretization` ran. -/
structure Graph where
  QUERYABLE : Bool
  OPTIMIZER_SCOPE : List String
  prepared : Bool
  weights : Nat
  edges : List EdgeData
deriving DecidableEq, Repr

def defaultGraph : Graph :=
  { QUERYABLE := false, OPTIMIZER_SCOPE := [], prepared := false,
    weights := 0, edges := [] }

/-- The Python heap: graph objects addressed by index. -/
abbrev Heap := List Graph

/-- Read the object at an address (a dangling address reads the default
object; all theorems quantify over valid addresses). -/
def getG (h : Heap) (a : Nat) : Graph := h.getD a defaultGraph

/-- Overwrite the object at an address. -/
def setG (h : Heap) (a : Nat) (g : Graph) : Heap := h.set a g

/-- `search_space.clone()`: allocate a fresh object with the same data and
return its address. -/
def cloneAt (h : Heap) (a : Nat) : Heap × Nat := (h ++ [getG h a], h.length)

/-- `np.random.randint(n)` given one random draw `r`: uniform in `[0, n)`;
raises (`none`) when `n = 0`. -/
def randint (n : Nat) (r : Nat) : Option Nat :=
  if n = 0 then none else some (r % n)

/-- `add_sampled_op_index(edge)`: sample an op index for the edge, i.e.
`op_index = np.random.randint(len(edge.data.op))` followed by
`edge.data.set('op_index', op_index)`.  `len` of a non-list raises. -/
def add_sampled_op_index (r : Nat) (e : EdgeData) : Option EdgeData :=
  match e.op with
  | OpField.list ops =>
      (randint ops.length r).map (fun i => { e with op_index := some i })
  | OpField.single _ => none

/-- `update_ops(edge)`: replace the primitive ops at the edge with the
sampled one.  `primitives` is `edge.data.op` when that is a list, else
`edge.data.primitives`; then `op := primitives[op_index]` and
`primitives` is stored for later use.  Unset attributes and out-of-range
indexing raise (`none`). -/
def update_ops (e : EdgeData) : Option EdgeData :=
  let prims : Option (List Nat) :=
    match e.op with
    | OpField.list ops => some ops
    | OpField.single _ => e.primitives
  match prims, e.op_index with
  | some ps, some i =>
      if hlt : i < ps.length then
        some { e with op := OpField.single (ps.get ⟨i, hlt⟩),
                      primitives := some ps }
      else none
  | _, _ => none

/-- Modelled from the spec: `Graph.prepare_discretization` belongs to the
external search-space library ("operation discretization internals ...
external"); it reorganises the graph for discretization and touches
neither the architecture weights nor other objects.  We record only that
it ran. -/
def prepare_discretization (g : Graph) : Graph := { g with prepared := true }

/-- Modelled from the spec: `Graph.update_edges(f, scope, private_edge_data)`
belongs to the external search-space library; it applies `f` to every edge
of the graph that lies in `scope` (edges outside the scope are untouched),
failing as soon as `f` raises.  `f` receives the edge position so that each
edge consumes its own random draw. -/
def update_edges_go (sc : List String) (f : Nat → EdgeData → Option EdgeData) :
    Nat → List EdgeData → Option (List EdgeData)
  | _, [] => some []
  | i, e :: es =>
      match (if e.scopeTag ∈ sc then f i e else some e) with
      | none => none
      | some e2 => (update_edges_go sc f (i + 1) es).map (fun xs => e2 :: xs)

/-- Modelled from the spec: see `update_edges_go`; lifts the edge traversal
to the graph object. -/
def update_edges (g : Graph) (f : Nat → EdgeData → Option EdgeData)
    (sc : List String) : Option Graph :=
  (update_edges_go sc f 0 g.edges).map (fun es => { g with edges := es })

/-- `sample_random_architecture(search_space, scope)`: clone the search
space, prepare discretization, add sampled op indices (pass 1), replace
primitives with the sampled ops (pass 2); returns the clone's address.
`rands` supplies the random draws consumed by pass 1. -/
def sample_random_architecture (rands : Nat → Nat) (h : Heap) (a : Nat)
    (scope : List String) : Option (Heap × Nat) :=
  let c := cloneAt h a
  let a1 := c.2
  let g1 := prepare_discretization (getG c.1 a1)
  let h2 := setG c.1 a1 g1
  match update_edges g1 (fun i e => add_sampled_op_index (rands i) e) scope with
  | none => none
  | some g2 =>
      let h3 := setG h2 a1 g2
      match update_edges g2 (fun _ e => update_ops e) scope with
      | none => none
      | some g3 => some (setG h3 a1 g3, a1)

/-- A sampled model (`torch.nn.Module` wrapper with `arch` and `accuracy`):
`arch` is the heap address of the sampled architecture. -/
structure Model where
  arch : Nat
  accuracy : Int
deriving DecidableEq, Repr

/-- Modelled from the spec: the external benchmark oracle behind
`arch.query(metric, dataset)`, returning a precomputed metric value for an
architecture encoding. -/
abbrev Benchmark := Graph → Metric → String → Int

/-- The optimizer state: the attributes set by `__init__` and
`adapt_search_space`.  `search_space` and `scope` are unset (`none`)
until `adapt_search_space` runs. -/
structure RandomSearch where
  weight_optimizer : Nat
  loss : Nat
  grad_clip : Option Int
  performance_metric : Metric
  dataset : String
  sampled_archs : List Model
  history : List Model
  search_space : Option Nat
  scope : Option (List String)
deriving DecidableEq, Repr

/-- `RandomSearch.using_step_function`: training the models is not
implemented. -/
def using_step_function : Bool := false

/-- `RandomSearch.__init__(config, ...)`: store the collaborators, set the
performance metric to validation accuracy, and start with empty
`sampled_archs` and `history`. -/
def RandomSearch.init (dataset : String) (weight_optimizer loss : Nat)
    (grad_clip : Option Int) : RandomSearch :=
  { weight_optimizer := weight_optimizer, loss := loss, grad_clip := grad_clip,
    performance_metric := Metric.VAL_ACCURACY, dataset := dataset,
    sampled_archs := [], history := [], search_space := none, scope := none }

/-- Python truthiness of the `scope` argument (`None` and `[]` are falsy). -/
def truthy : Option (List String) → Bool
  | none => false
  | some l => !l.isEmpty

/-- `RandomSearch.adapt_search_space(search_space, scope)`: assert
`search_space.QUERYABLE` (an `AssertionError` yields `none`, before any
attribute is set), store a clone of the search space, and set
`self.scope` to `scope if scope else search_space.OPTIMIZER_SCOPE`. -/
def adapt_search_space (h : Heap) (s : RandomSearch) (a : Nat)
    (scope : Option (List String)) : Option (Heap × RandomSearch) :=
  if (getG h a).QUERYABLE then
    let c := cloneAt h a
    some (c.1,
      { s with search_space := some c.2,
               scope := some (if truthy scope then scope.getD []
                              else (getG h a).OPTIMIZER_SCOPE) })
  else none

/-- The loop of `RandomSearch._update_history`: replace the first model
in the history whose accuracy is strictly below the child's, then break. -/
def replaceFirstBetter (c : Model) : List Model → List Model
  | [] => []
  | p :: ps =>
      if c.accuracy > p.accuracy then c :: ps else p :: replaceFirstBetter c ps

/-- `RandomSearch._update_history(child)`: append while fewer than 100
entries, otherwise scan for the first entry the child beats. -/
def update_history (h : List Model) (c : Model) : List Model :=
  if h.length < 100 then h ++ [c] else replaceFirstBetter c h

/-- The state change `new_epoch` performs once the model is built: append
it to `sampled_archs` and update the history. -/
def new_epoch_core (s : RandomSearch) (m : Model) : RandomSearch :=
  { s with sampled_archs := s.sampled_archs ++ [m],
           history := update_history s.history m }

/-- `RandomSearch.new_epoch(e)`: sample a new architecture from the stored
search-space clone, query its validation accuracy from the benchmark,
record the model.  Reading `self.search_space`/`self.scope` before
`adapt_search_space` raises (`none`). -/
def new_epoch (bench : Benchmark) (rands : Nat → Nat) (h : Heap)
    (s : RandomSearch) : Option (Heap × RandomSearch) :=
  match s.search_space, s.scope with
  | some ss, some sc =>
      match sample_random_architecture rands h ss sc with
      | none => none
      | some (h2, archAddr) =>
          let m : Model :=
            { arch := archAddr,
              accuracy := bench (getG h2 archAddr) s.performance_metric s.dataset }
          some (h2, new_epoch_core s m)
  | _, _ => none

/-- Run a sequence of (successful) epochs, given the models they record:
the state part of iterated `new_epoch`. -/
def run (s : RandomSearch) (ms : List Model) : RandomSearch :=
  ms.foldl new_epoch_core s

/-- One comparison step of Python's `max(xs, key=lambda x: x.accuracy)`:
keep the current best unless the next element is strictly greater. -/
def pyBest (best x : Model) : Model :=
  if x.accuracy > best.accuracy then x else best

/-- Python's `max(xs, key=...)`: first element with maximal key; raises
(`none`) on an empty sequence. -/
def pyMaxKey : List Model → Option Model
  | [] => none
  | m :: ms => some (ms.foldl pyBest m)

/-- `RandomSearch.get_final_architecture()`: the sampled architecture with
the highest queried validation accuracy. -/
def get_final_architecture (s : RandomSearch) : Option Nat :=
  (pyMaxKey s.sampled_archs).map Model.arch

/-- `RandomSearch.train_statistics()`: query four metrics of the best
architecture; fails when there is none. -/
def train_statistics (bench : Benchmark) (h : Heap) (s : RandomSearch) :
    Option (Int × Int × Int × Int) :=
  (get_final_architecture s).map (fun a =>
    (bench (getG h a) Metric.TRAIN_ACCURACY s.dataset,
     bench (getG h a) Metric.TRAIN_LOSS s.dataset,
     bench (getG h a) Metric.VAL_ACCURACY s.dataset,
     bench (getG h a) Metric.VAL_LOSS s.dataset))

/-- `RandomSearch.test_statistics()`: query the raw benchmark data of the
best architecture; fails when there is none. -/
def test_statistics (bench : Benchmark) (h : Heap) (s : RandomSearch) :
    Option Int :=
  (get_final_architecture s).map (fun a => bench (getG h a) Metric.RAW s.dataset)

/-- Insert into a descending-sorted list (spec-side helper). -/
def insertDesc (a : Int) : List Int → List Int
  | [] => [a]
  | b :: bs => if b ≤ a then a :: b :: bs else b :: insertDesc a bs

/-- Sort a list of accuracies in descending order (spec-side helper). -/
def sortDesc : List Int → List Int
  | [] => []
  | a :: as => insertDesc a (sortDesc as)

/-- The spec's claimed history content: "the 100 sampled models with the
highest accuracies" — the top-`k` accuracies of the sampled models. -/
def topKAccuracies (k : Nat) (ms : List Model) : List Int :=
  (sortDesc (ms.map Model.accuracy)).take k

/-- Insert a model into a list sorted by descending accuracy (spec-side
helper). -/
def insertModelDesc (a : Model) : List Model → List Model
  | [] => [a]
  | b :: bs => if b.accuracy ≤ a.accuracy then a :: b :: bs else b :: insertModelDesc a bs

/-- Sort models by descending accuracy (spec-side helper). -/
def sortModelsDesc : List Model → List Model
  | [] => []
  | a :: as => insertModelDesc a (sortModelsDesc as)

/-- The spec's claimed history content, at the level of models: the `k`
sampled models with the highest accuracies. -/
def topKModels (k : Nat) (ms : List Model) : List Model :=
  (sortModelsDesc ms).take k

/-- A model with a given accuracy (concrete inputs for witnesses). -/
def mkM (a : Int) : Model := { arch := 0, accuracy := a }

/-- A freshly initialized optimizer (concrete input for witnesses). -/
def initState : RandomSearch := RandomSearch.init "cifar10" 0 0 none

/-- A concrete sampling sequence of 101 models: accuracies
`50, 10, 100 × 98, 60`. -/
def cseq : List Model :=
  mkM 50 :: mkM 10 :: (List.replicate 98 (mkM 100) ++ [mkM 60])

/-- The loop invariant linking `history` and `sampled_archs`: the history
holds sampled models only, and (once anything was sampled) some history
entry attains the maximal sampled accuracy. -/
def HistInv (s : RandomSearch) : Prop :=
  (∀ p ∈ s.history, p ∈ s.sampled_archs) ∧
  (s.sampled_archs ≠ [] →
    ∃ p ∈ s.history, p ∈ s.sampled_archs ∧
      ∀ x ∈ s.sampled_archs, x.accuracy ≤ p.accuracy)

/-- A concrete edge with two candidate primitives (witness input). -/
def we1 : EdgeData :=
  { scopeTag := "s1", op := OpField.list [3, 4], op_index := none, primitives := none }

/-- `we1` after sampling op index 1 (witness input). -/
def we2 : EdgeData := { we1 with op_index := some 1 }

/-- A concrete queryable one-edge search space (witness input). -/
def gW : Graph :=
  { QUERYABLE := true, OPTIMIZER_SCOPE := ["s1"], prepared := false,
    weights := 7, edges := [we1] }

/-- A concrete heap holding only `gW` (witness input). -/
def heapW : Heap := [gW]

/-- A concrete benchmark oracle (witness input). -/
def benchW : Benchmark := fun _ _ _ => 42

/-- A concrete stream of random draws (witness input). -/
def randsW : Nat → Nat := fun _ => 1

/-- The optimizer after `adapt_search_space` on `gW` (witness input). -/
def sW : RandomSearch :=
  { initState with search_space := some 0, scope := some ["s1"] }

/-- The result of one `new_epoch` on the concrete setup (witness input). -/
def resW : Heap × RandomSearch := (new_epoch benchW randsW heapW sW).getD ([], initState)

/-- The result of one `sample_random_architecture` on the concrete setup
(witness input). -/
def resSampleW : Heap × Nat :=
  (sample_random_architecture randsW heapW 0 ["s1"]).getD ([], 0)

/-- The result of `adapt_search_space` on the concrete setup (witness
input). -/
def resAdaptW : Heap × RandomSearch :=
  (adapt_search_space heapW initState 0 none).getD ([], initState)

/-! ## Helper lemmas -/

lemma getG_append_left (h : Heap) (g : Graph) (b : Nat) (hb : b < h.length) :
    getG (h ++ [g]) b = getG h b := by
  unfold getG
  rw [List.getD_eq_getElem?_getD, List.getD_eq_getElem?_getD,
    List.getElem?_append_left hb]

lemma getG_append_self (h : Heap) (g : Graph) : getG (h ++ [g]) h.length = g := by
  unfold getG
  rw [List.getD_eq_getElem?_getD, List.getElem?_concat_length]
  rfl

lemma getG_set_ne (h : Heap) (a b : Nat) (g : Graph) (hne : a ≠ b) :
    getG (setG h a g) b = getG h b := by
  unfold getG setG
  rw [List.getD_eq_getElem?_getD, List.getD_eq_getElem?_getD,
    List.getElem?_set_ne hne]

lemma getG_set_self (h : Heap) (a : Nat) (g : Graph) (ha : a < h.length) :
    getG (setG h a g) a = g := by
  unfold getG setG
  rw [List.getD_eq_getElem?_getD, List.getElem?_set_self ha]
  rfl

lemma pyBest_cases (m x : Model) : pyBest m x = m ∨ pyBest m x = x := by
  unfold pyBest
  by_cases hc : x.accuracy > m.accuracy
  · exact Or.inr (if_pos hc)
  · exact Or.inl (if_neg hc)

lemma pyBest_le_left (m x : Model) : m.accuracy ≤ (pyBest m x).accuracy := by
  unfold pyBest
  by_cases hc : x.accuracy > m.accuracy
  · rw [if_pos hc]; exact le_of_lt hc
  · rw [if_neg hc]

lemma pyBest_le_right (m x : Model) : x.accuracy ≤ (pyBest m x).accuracy := by
  unfold pyBest
  by_cases hc : x.accuracy > m.accuracy
  · rw [if_pos hc]
  · rw [if_neg hc]; exact le_of_not_lt hc

lemma foldl_pyBest_mem (ms : List Model) : ∀ m : Model, ms.foldl pyBest m ∈ m :: ms := by
  induction ms with
  | nil => intro m; simp
  | cons x xs ih =>
      intro m
      have h := ih (pyBest m x)
      rw [List.foldl_cons]
      rcases List.mem_cons.mp h with h1 | h1
      · rcases pyBest_cases m x with h2 | h2
        · rw [h1, h2]; exact List.mem_cons_self _ _
        · rw [h1, h2]
          exact List.mem_cons_of_mem _ (List.mem_cons_self _ _)
      · exact List.mem_cons_of_mem _ (List.mem_cons_of_mem _ h1)

lemma foldl_pyBest_le (ms : List Model) :
    ∀ m y, y ∈ m :: ms → y.accuracy ≤ (ms.foldl pyBest m).accuracy := by
  induction ms with
  | nil =>
      intro m y hy
      rcases List.mem_cons.mp hy with h | h
      · rw [h]; rfl
      · cases h
  | cons x xs ih =>
      intro m y hy
      rw [List.foldl_cons]
      rcases List.mem_cons.mp hy with h | h
      · rw [h]
        exact le_trans (pyBest_le_left m x)
          (ih (pyBest m x) (pyBest m x) (List.mem_cons_self _ _))
      · rcases List.mem_cons.mp h with h2 | h2
        · rw [h2]
          exact le_trans (pyBest_le_right m x)
            (ih (pyBest m x) (pyBest m x) (List.mem_cons_self _ _))
        · exact ih (pyBest m x) y (List.mem_cons_of_mem _ h2)

lemma pyMaxKey_spec (l : List Model) (hne : l ≠ []) :
    ∃ m, pyMaxKey l = some m ∧ m ∈ l ∧ ∀ x ∈ l, x.accuracy ≤ m.accuracy := by
  cases l with
  | nil => exact absurd rfl hne
  | cons m ms =>
      exact ⟨ms.foldl pyBest m, rfl, foldl_pyBest_mem ms m,
        fun x hx => foldl_pyBest_le ms m x hx⟩

lemma run_nil (s : RandomSearch) : run s [] = s := rfl

lemma run_cons (s : RandomSearch) (m : Model) (ms : List Model) :
    run s (m :: ms) = run (new_epoch_core s m) ms := rfl

lemma run_sampled (ms : List Model) :
    ∀ s : RandomSearch, (run s ms).sampled_archs = s.sampled_archs ++ ms := by
  induction ms with
  | nil => intro s; simp [run_nil]
  | cons m ms ih =>
      intro s
      rw [run_cons, ih]
      simp [new_epoch_core]

lemma length_replaceFirstBetter (c : Model) (h : List Model) :
    (replaceFirstBetter c h).length = h.length := by
  induction h with
  | nil => rfl
  | cons p ps ih =>
      unfold replaceFirstBetter
      by_cases hc : c.accuracy > p.accuracy
      · rw [if_pos hc]
        simp
      · rw [if_neg hc]
        simp [ih]

lemma length_update_history (h : List Model) (c : Model) (hb : h.length ≤ 100) :
    (update_history h c).length = min (h.length + 1) 100 := by
  unfold update_history
  by_cases hl : h.length < 100
  · rw [if_pos hl]
    simp
    omega
  · rw [if_neg hl, length_replaceFirstBetter]
    omega

lemma run_history_length (ms : List Model) :
    ∀ s : RandomSearch, s.history.length ≤ 100 →
      (run s ms).history.length = min (s.history.length + ms.length) 100 := by
  induction ms with
  | nil => intro s hs; simp [run_nil]; omega
  | cons m ms ih =>
      intro s hs
      rw [run_cons]
      have h1 : (new_epoch_core s m).history.length = min (s.history.length + 1) 100 := by
        simp only [new_epoch_core]
        exact length_update_history s.history m hs
      have h2 := ih (new_epoch_core s m) (by omega)
      rw [h2, h1]
      simp
      omega

lemma mem_replaceFirstBetter (c x : Model) (h : List Model)
    (hx : x ∈ replaceFirstBetter c h) : x = c ∨ x ∈ h := by
  induction h with
  | nil => cases hx
  | cons p ps ih =>
      unfold replaceFirstBetter at hx
      by_cases hc : c.accuracy > p.accuracy
      · rw [if_pos hc] at hx
        rcases List.mem_cons.mp hx with h1 | h1
        · exact Or.inl h1
        · exact Or.inr (List.mem_cons_of_mem _ h1)
      · rw [if_neg hc] at hx
        rcases List.mem_cons.mp hx with h1 | h1
        · exact Or.inr (h1 ▸ List.mem_cons_self _ _)
        · rcases ih h1 with h2 | h2
          · exact Or.inl h2
          · exact Or.inr (List.mem_cons_of_mem _ h2)

lemma mem_update_history (h : List Model) (c x : Model)
    (hx : x ∈ update_history h c) : x = c ∨ x ∈ h := by
  unfold update_history at hx
  by_cases hl : h.length < 100
  · rw [if_pos hl] at hx
    rcases List.mem_append.mp hx with h1 | h1
    · exact Or.inr h1
    · exact Or.inl (List.mem_singleton.mp h1)
  · rw [if_neg hl] at hx
    exact mem_replaceFirstBetter c x h hx

lemma replaceFirstBetter_keeps (c p : Model) (h : List Model)
    (hp : p ∈ h) (hge : c.accuracy ≤ p.accuracy) : p ∈ replaceFirstBetter c h := by
  induction h with
  | nil => cases hp
  | cons r rs ih =>
      unfold replaceFirstBetter
      by_cases hc : c.accuracy > r.accuracy
      · rw [if_pos hc]
        rcases List.mem_cons.mp hp with h1 | h1
        · exact absurd hge (by rw [h1]; exact not_le_of_lt hc)
        · exact List.mem_cons_of_mem _ h1
      · rw [if_neg hc]
        rcases List.mem_cons.mp hp with h1 | h1
        · exact h1 ▸ List.mem_cons_self _ _
        · exact List.mem_cons_of_mem _ (ih h1)

lemma replaceFirstBetter_inserts (c : Model) (h : List Model)
    (hex : ∃ q ∈ h, q.accuracy < c.accuracy) : c ∈ replaceFirstBetter c h := by
  induction h with
  | nil => obtain ⟨q, hq, _⟩ := hex; cases hq
  | cons r rs ih =>
      unfold replaceFirstBetter
      by_cases hc : c.accuracy > r.accuracy
      · rw [if_pos hc]
        exact List.mem_cons_self _ _
      · rw [if_neg hc]
        obtain ⟨q, hq, hqa⟩ := hex
        rcases List.mem_cons.mp hq with h1 | h1
        · exact absurd hqa (by rw [h1] at hqa ⊢; exact fun h2 => hc h2)
        · exact List.mem_cons_of_mem _ (ih ⟨q, h1, hqa⟩)

lemma update_history_keeps (h : List Model) (c p : Model)
    (hp : p ∈ h) (hge : c.accuracy ≤ p.accuracy) : p ∈ update_history h c := by
  unfold update_history
  by_cases hl : h.length < 100
  · rw [if_pos hl]
    exact List.mem_append_left _ hp
  · rw [if_neg hl]
    exact replaceFirstBetter_keeps c p h hp hge

lemma update_history_inserts (h : List Model) (c : Model)
    (hex : h = [] ∨ ∃ q ∈ h, q.accuracy < c.accuracy) : c ∈ update_history h c := by
  unfold update_history
  by_cases hl : h.length < 100
  · rw [if_pos hl]
    exact List.mem_append_right _ (List.mem_singleton.mpr rfl)
  · rw [if_neg hl]
    rcases hex with h1 | h1
    · rw [h1] at hl
      exact absurd (by simp : ([] : List Model).length < 100) hl
    · exact replaceFirstBetter_inserts c h h1

lemma histInv_step (s : RandomSearch) (m : Model) (hs : HistInv s) :
    HistInv (new_epoch_core s m) := by
  obtain ⟨hsub, hmax⟩ := hs
  constructor
  · intro p hp
    simp only [new_epoch_core] at hp ⊢
    rcases mem_update_history s.history m p hp with h1 | h1
    · exact List.mem_append_right _ (List.mem_singleton.mpr h1)
    · exact List.mem_append_left _ (hsub p h1)
  · intro _
    simp only [new_epoch_core]
    by_cases he : s.sampled_archs = []
    · have hh : s.history = [] := by
        cases hh : s.history with
        | nil => rfl
        | cons q qs =>
            have := hsub q (hh ▸ List.mem_cons_self _ _)
            rw [he] at this
            cases this
      refine ⟨m, ?_, ?_, ?_⟩
      · exact update_history_inserts s.history m (Or.inl hh)
      · exact List.mem_append_right _ (List.mem_singleton.mpr rfl)
      · intro x hx
        rw [he] at hx
        simp at hx
        rw [hx]
    · obtain ⟨p, hph, hps, hple⟩ := hmax he
      by_cases hcm : m.accuracy ≤ p.accuracy
      · refine ⟨p, update_history_keeps s.history m p hph hcm,
          List.mem_append_left _ hps, ?_⟩
        intro x hx
        rcases List.mem_append.mp hx with h1 | h1
        · exact hple x h1
        · rw [List.mem_singleton.mp h1]; exact hcm
      · have hlt : p.accuracy < m.accuracy := lt_of_not_le hcm
        refine ⟨m, update_history_inserts s.history m (Or.inr ⟨p, hph, hlt⟩),
          List.mem_append_right _ (List.mem_singleton.mpr rfl), ?_⟩
        intro x hx
        rcases List.mem_append.mp hx with h1 | h1
        · exact le_of_lt (lt_of_le_of_lt (hple x h1) hlt)
        · rw [List.mem_singleton.mp h1]

lemma histInv_run (ms : List Model) :
    ∀ s : RandomSearch, HistInv s → HistInv (run s ms) := by
  induction ms with
  | nil => intro s hs; exact hs
  | cons m ms ih =>
      intro s hs
      rw [run_cons]
      exact ih _ (histInv_step s m hs)

/-! ## Claims -/

/-- C1: for every sequence of `new_epoch` calls recording at least one
sampled model, `get_final_architecture` returns the architecture of a
sampled model whose queried validation accuracy is maximal over all
models in `sampled_archs`. -/
theorem C1_final_architecture_is_max (s0 : RandomSearch) (ms : List Model)
    (h0 : s0.sampled_archs = []) (hne : ms ≠ []) :
    ∃ m ∈ ms, get_final_architecture (run s0 ms) = some m.arch ∧
      ∀ x ∈ ms, x.accuracy ≤ m.accuracy := by
  have hs : (run s0 ms).sampled_archs = ms := by
    rw [run_sampled, h0]
    rfl
  obtain ⟨m, hm, hmem, hle⟩ := pyMaxKey_spec ms hne
  refine ⟨m, hmem, ?_, hle⟩
  unfold get_final_architecture
  rw [hs, hm]
  rfl

/-- Witness for C1 at a concrete three-model sequence. -/
theorem C1_witness :
    ∃ m ∈ [mkM 3, mkM 9, mkM 7], get_final_architecture (run initState [mkM 3, mkM 9, mkM 7]) = some m.arch ∧
      ∀ x ∈ [mkM 3, mkM 9, mkM 7], x.accuracy ≤ m.accuracy :=
  C1_final_architecture_is_max initState [mkM 3, mkM 9, mkM 7] rfl (by decide)

/-- C3: the history is bounded — after `n` recorded epochs starting from
an empty history its length is exactly `min n 100`, hence never exceeds
100, and a full history stays at exactly 100 entries. -/
theorem C3_history_length (s0 : RandomSearch) (ms : List Model)
    (h0 : s0.history = []) :
    (run s0 ms).history.length = min ms.length 100 ∧
    (run s0 ms).history.length ≤ 100 := by
  have h := run_history_length ms s0 (by rw [h0]; simp)
  rw [h0] at h
  simp at h
  exact ⟨h, by omega⟩

/-- Witness for C3 at a concrete two-model sequence. -/
theorem C3_witness :
    (run initState [mkM 1, mkM 2]).history.length = min 2 100 ∧
    (run initState [mkM 1, mkM 2]).history.length ≤ 100 := by
  have h := C3_history_length initState [mkM 1, mkM 2] rfl
  simpa using h

/-- C5: after every sequence of recorded epochs, the history contains a
sampled model whose accuracy is the maximum accuracy over all models
sampled so far. -/
theorem C5_history_retains_max (s0 : RandomSearch) (ms : List Model)
    (h0 : s0.history = []) (hs0 : s0.sampled_archs = []) (hne : ms ≠ []) :
    ∃ p ∈ (run s0 ms).history, p ∈ ms ∧ ∀ x ∈ ms, x.accuracy ≤ p.accuracy := by
  have hinv : HistInv s0 := by
    constructor
    · intro p hp
      rw [h0] at hp
      cases hp
    · intro hcon
      exact absurd hs0 hcon
  have h := histInv_run ms s0 hinv
  have hs : (run s0 ms).sampled_archs = ms := by
    rw [run_sampled, hs0]
    rfl
  obtain ⟨_, hmax⟩ := h
  rw [hs] at hmax
  obtain ⟨p, hph, hps, hple⟩ := hmax hne
  exact ⟨p, hph, hps, hple⟩

/-- Witness for C5 at a concrete three-model sequence. -/
theorem C5_witness :
    ∃ p ∈ (run initState [mkM 4, mkM 11, mkM 6]).history, p ∈ [mkM 4, mkM 11, mkM 6] ∧
      ∀ x ∈ [mkM 4, mkM 11, mkM 6], x.accuracy ≤ p.accuracy :=
  C5_history_retains_max initState [mkM 4, mkM 11, mkM 6] rfl rfl (by decide)

/-- C8: calling `get_final_architecture` before any epoch fails (`max` of
an empty sequence), and so do `train_statistics` and `test_statistics`. -/
theorem C8_empty_sampled_fails (bench : Benchmark) (h : Heap) (s : RandomSearch)
    (he : s.sampled_archs = []) :
    get_final_architecture s = none ∧
    train_statistics bench h s = none ∧
    test_statistics bench h s = none := by
  have h1 : get_final_architecture s = none := by
    unfold get_final_architecture
    rw [he]
    rfl
  refine ⟨h1, ?_, ?_⟩
  · unfold train_statistics
    rw [h1]
    rfl
  · unfold test_statistics
    rw [h1]
    rfl

/-- Witness for C8 at the freshly initialized optimizer. -/
theorem C8_witness :
    get_final_architecture initState = none ∧
    train_statistics (fun _ _ _ => 0) [] initState = none ∧
    test_statistics (fun _ _ _ => 0) [] initState = none :=
  C8_empty_sampled_fails (fun _ _ _ => 0) [] initState rfl

/-- C10: whenever `add_sampled_op_index` chooses an op index for an edge,
that index is within the bounds of the edge's op list, so the later
`primitives[op_index]` access in `update_ops` succeeds. -/
theorem C10_op_index_in_bounds (r : Nat) (e e2 : EdgeData)
    (hok : add_sampled_op_index r e = some e2) :
    ∃ ops i, e.op = OpField.list ops ∧ e2.op_index = some i ∧
      i < ops.length ∧ (update_ops e2).isSome = true := by
  cases he : e.op with
  | single o =>
      rw [add_sampled_op_index, he] at hok
      cases hok
  | list ops =>
      rw [add_sampled_op_index, he] at hok
      by_cases h0 : ops.length = 0
      · simp only [randint] at hok
        rw [if_pos h0] at hok
        cases hok
      · simp only [randint] at hok
        rw [if_neg h0] at hok
        simp only [Option.map_some'] at hok
        have hx := Option.some.inj hok
        subst hx
        have hlt : r % ops.length < ops.length := Nat.mod_lt _ (Nat.pos_of_ne_zero h0)
        refine ⟨ops, r % ops.length, rfl, rfl, hlt, ?_⟩
        simp [update_ops, hlt]

/-- Witness for C10 at a concrete edge with two primitives. -/
theorem C10_witness :
    ∃ ops i, we1.op = OpField.list ops ∧ we2.op_index = some i ∧
      i < ops.length ∧ (update_ops we2).isSome = true :=
  C10_op_index_in_bounds 1 we1 we2 (by decide)

set_option maxRecDepth 40000 in
/-- C2 counterexample: after the 101 epochs of `cseq`, the history is not
the multiset of the 100 sampled models with the highest accuracies — the
model with accuracy 10 stays although 101 better-or-equal models exist. -/
theorem C2_counterexample :
    cseq.length = 101 ∧
    ¬ (Multiset.ofList (run initState cseq).history
        = Multiset.ofList (topKModels 100 cseq)) := by
  refine ⟨by decide, fun hEq => ?_⟩
  have h1 : ((run initState cseq).history).count (mkM 10) = 1 := by decide
  have h2 : (topKModels 100 cseq).count (mkM 10) = 0 := by decide
  have h3 := congrArg (Multiset.count (mkM 10)) hEq
  rw [Multiset.coe_count, Multiset.coe_count, h1, h2] at h3
  cases h3

lemma findIdx?_shift (p : Model → Bool) : ∀ (l : List Model) (i : Nat),
    List.findIdx? p l (i + 1) = (List.findIdx? p l i).map (fun j => j + 1) := by
  intro l
  induction l with
  | nil => intro i; simp
  | cons x xs ih =>
      intro i
      rw [List.findIdx?_cons, List.findIdx?_cons]
      by_cases hp : p x = true
      · rw [if_pos hp, if_pos hp]
        rfl
      · rw [if_neg hp, if_neg hp]
        exact ih (i + 1)

lemma replaceFirstBetter_eq_findIdx (c : Model) (h : List Model) :
    replaceFirstBetter c h =
      match h.findIdx? (fun p => decide (p.accuracy < c.accuracy)) with
      | none => h
      | some i => h.set i c := by
  induction h with
  | nil => rfl
  | cons p ps ih =>
      rw [List.findIdx?_cons]
      by_cases hc : p.accuracy < c.accuracy
      · rw [if_pos (by simpa using hc)]
        unfold replaceFirstBetter
        rw [if_pos hc]
        rfl
      · rw [if_neg (by simpa using hc)]
        rw [findIdx?_shift]
        unfold replaceFirstBetter
        rw [if_neg hc]
        cases hf : List.findIdx? (fun p => decide (p.accuracy < c.accuracy)) ps 0 with
        | none =>
            rw [hf] at ih
            simp [ih]
        | some i =>
            rw [hf] at ih
            simp [ih]

/-- C2 amended: the history has capacity 100 and is maintained by a linear
scan — the first 100 models are appended; once full, a new model replaces
the first history entry with strictly lower accuracy (not necessarily the
lowest), or is discarded if none is lower.  The history is therefore not
in general the top-100 multiset (see the counterexample). -/
theorem C2_amended_update_history (h : List Model) (c : Model) :
    (h.length < 100 → update_history h c = h ++ [c]) ∧
    (100 ≤ h.length →
      update_history h c =
        match h.findIdx? (fun p => decide (p.accuracy < c.accuracy)) with
        | none => h
        | some i => h.set i c) := by
  constructor
  · intro hl
    unfold update_history
    rw [if_pos hl]
  · intro hl
    unfold update_history
    rw [if_neg (by omega)]
    exact replaceFirstBetter_eq_findIdx c h

set_option maxRecDepth 20000 in
/-- Witness for the amended C2: one append below capacity, one
first-lower replacement at capacity. -/
theorem C2_amended_witness :
    update_history [] (mkM 5) = [mkM 5] ∧
    update_history (List.replicate 100 (mkM 0)) (mkM 7) =
      (List.replicate 100 (mkM 0)).set 0 (mkM 7) := by
  constructor
  · exact (C2_amended_update_history [] (mkM 5)).1 (by decide)
  · have h2 := (C2_amended_update_history (List.replicate 100 (mkM 0)) (mkM 7)).2 (by decide)
    have hf : (List.replicate 100 (mkM 0)).findIdx?
        (fun p => decide (p.accuracy < (mkM 7).accuracy)) = some 0 := by decide
    rw [hf] at h2
    exact h2

lemma setG_length (h : Heap) (a : Nat) (g : Graph) :
    (setG h a g).length = h.length := by
  unfold setG
  exact List.length_set h a g

lemma update_edges_weights (g g2 : Graph) (f : Nat → EdgeData → Option EdgeData)
    (sc : List String) (hok : update_edges g f sc = some g2) :
    g2.weights = g.weights := by
  unfold update_edges at hok
  cases he : update_edges_go sc f 0 g.edges with
  | none => rw [he] at hok; cases hok
  | some es =>
      rw [he] at hok
      simp only [Option.map_some'] at hok
      rw [← Option.some.inj hok]

lemma sample_spec (rands : Nat → Nat) (h : Heap) (a : Nat) (sc : List String)
    (h2 : Heap) (a2 : Nat)
    (hok : sample_random_architecture rands h a sc = some (h2, a2)) :
    a2 = h.length ∧
    (∀ b, b < h.length → getG h2 b = getG h b) ∧
    (getG h2 a2).weights = (getG h a).weights ∧
    h2.length = h.length + 1 := by
  simp only [sample_random_architecture, cloneAt] at hok
  split at hok
  · cases hok
  · rename_i g2 hu1
    split at hok
    · cases hok
    · rename_i g3 hu2
      have hpair := Option.some.inj hok
      have hh2 : h2 = setG (setG (setG (h ++ [getG h a]) h.length
          (prepare_discretization (getG (h ++ [getG h a]) h.length)))
          h.length g2) h.length g3 := (congrArg Prod.fst hpair).symm
      have ha2 : a2 = h.length := (congrArg Prod.snd hpair).symm
      have hlen : (setG (setG (h ++ [getG h a]) h.length
          (prepare_discretization (getG (h ++ [getG h a]) h.length)))
          h.length g2).length = h.length + 1 := by
        rw [setG_length, setG_length, List.length_append]
        rfl
      refine ⟨ha2, ?_, ?_, ?_⟩
      · intro b hb
        rw [hh2, getG_set_ne _ _ _ _ (by omega), getG_set_ne _ _ _ _ (by omega),
          getG_set_ne _ _ _ _ (by omega), getG_append_left h _ b hb]
      · rw [ha2, hh2, getG_set_self _ _ _ (by rw [hlen]; omega)]
        have hw3 := update_edges_weights g2 g3 _ sc hu2
        have hw2 := update_edges_weights _ g2 _ sc hu1
        rw [hw3, hw2]
        have : (prepare_discretization (getG (h ++ [getG h a]) h.length)).weights
            = (getG (h ++ [getG h a]) h.length).weights := rfl
        rw [this, getG_append_self]
      · rw [hh2, setG_length, hlen]

lemma adapt_spec (h : Heap) (s : RandomSearch) (a : Nat)
    (scope : Option (List String)) (h2 : Heap) (s2 : RandomSearch)
    (hok : adapt_search_space h s a scope = some (h2, s2)) :
    (getG h a).QUERYABLE = true ∧
    h2 = h ++ [getG h a] ∧
    s2 = { s with search_space := some h.length,
                  scope := some (if truthy scope then scope.getD []
                                 else (getG h a).OPTIMIZER_SCOPE) } := by
  unfold adapt_search_space at hok
  by_cases hq : (getG h a).QUERYABLE
  · rw [if_pos hq] at hok
    have hpair := Option.some.inj hok
    simp only [cloneAt] at hpair
    exact ⟨hq, (congrArg Prod.fst hpair).symm, (congrArg Prod.snd hpair).symm⟩
  · rw [if_neg hq] at hok
    cases hok

lemma new_epoch_spec (bench : Benchmark) (rands : Nat → Nat) (h : Heap)
    (s : RandomSearch) (h2 : Heap) (s2 : RandomSearch)
    (hok : new_epoch bench rands h s = some (h2, s2)) :
    ∃ ss sc a2,
      s.search_space = some ss ∧ s.scope = some sc ∧
      sample_random_architecture rands h ss sc = some (h2, a2) ∧
      s2 = new_epoch_core s
        { arch := a2,
          accuracy := bench (getG h2 a2) s.performance_metric s.dataset } := by
  unfold new_epoch at hok
  split at hok
  · rename_i ss sc hss hsc
    split at hok
    · cases hok
    · rename_i hp h3 a3 hsr
      simp only [Option.some.injEq, Prod.mk.injEq] at hok
      obtain ⟨hh3, hs2⟩ := hok
      subst hh3
      exact ⟨ss, sc, a3, hss, hsc, hsr, hs2.symm⟩
  · cases hok

/-- C4: a successful `new_epoch` performs exactly sample–query–record: it
samples one architecture from the stored search-space clone, queries the
configured (VAL_ACCURACY) metric on the configured dataset, appends the
resulting model to `sampled_archs` (length grows by one) and updates the
history; every other optimizer attribute is unchanged. -/
theorem C4_new_epoch_effect (bench : Benchmark) (rands : Nat → Nat) (h : Heap)
    (s : RandomSearch) (h2 : Heap) (s2 : RandomSearch)
    (hpm : s.performance_metric = Metric.VAL_ACCURACY)
    (hok : new_epoch bench rands h s = some (h2, s2)) :
    ∃ ss sc a2,
      s.search_space = some ss ∧ s.scope = some sc ∧
      sample_random_architecture rands h ss sc = some (h2, a2) ∧
      s2.sampled_archs = s.sampled_archs ++
        [{ arch := a2, accuracy := bench (getG h2 a2) Metric.VAL_ACCURACY s.dataset }] ∧
      s2.sampled_archs.length = s.sampled_archs.length + 1 ∧
      s2.history = update_history s.history
        { arch := a2, accuracy := bench (getG h2 a2) Metric.VAL_ACCURACY s.dataset } ∧
      s2.weight_optimizer = s.weight_optimizer ∧
      s2.loss = s.loss ∧
      s2.grad_clip = s.grad_clip ∧
      s2.performance_metric = s.performance_metric ∧
      s2.dataset = s.dataset ∧
      s2.search_space = s.search_space ∧
      s2.scope = s.scope := by
  obtain ⟨ss, sc, a2, hss, hsc, hsr, hs2⟩ := new_epoch_spec bench rands h s h2 s2 hok
  rw [hpm] at hs2
  subst hs2
  refine ⟨ss, sc, a2, hss, hsc, hsr, ?_⟩
  simp [new_epoch_core]

/-- Witness for C4 on the concrete one-edge search space. -/
theorem C4_witness :
    resW.2.sampled_archs.length = sW.sampled_archs.length + 1 ∧
    resW.2.dataset = sW.dataset ∧ resW.2.scope = sW.scope := by
  obtain ⟨ss, sc, a2, hss, hsc, hsr, hsa, hlen, hhist, hwo, hloss, hgc, hpm2, hds, hss2, hsc2⟩ :=
    C4_new_epoch_effect benchW randsW heapW sW resW.1 resW.2 rfl (by decide)
  exact ⟨hlen, hds, hsc2⟩

/-- C6: `adapt_search_space` fails (AssertionError) exactly when the search
space's `QUERYABLE` attribute is false; on success it stores a clone of the
search space and sets the scope to the given scope when that is truthy and
to the search space's `OPTIMIZER_SCOPE` otherwise, leaving the remaining
attributes unchanged.  On failure no attribute is assigned. -/
theorem C6_adapt_search_space (h : Heap) (s : RandomSearch) (a : Nat)
    (scope : Option (List String)) :
    (adapt_search_space h s a scope = none ↔ (getG h a).QUERYABLE = false) ∧
    ((getG h a).QUERYABLE = true →
      ∃ h2 s2, adapt_search_space h s a scope = some (h2, s2) ∧
        s2.search_space = some h.length ∧
        getG h2 h.length = getG h a ∧
        s2.scope = some (if truthy scope then scope.getD []
                         else (getG h a).OPTIMIZER_SCOPE) ∧
        s2.sampled_archs = s.sampled_archs ∧
        s2.history = s.history ∧
        s2.performance_metric = s.performance_metric ∧
        s2.dataset = s.dataset) := by
  constructor
  · constructor
    · intro hn
      by_cases hq : (getG h a).QUERYABLE
      · unfold adapt_search_space at hn
        rw [if_pos hq] at hn
        cases hn
      · simpa using hq
    · intro hq
      unfold adapt_search_space
      rw [if_neg (by simp [hq])]
  · intro hq
    refine ⟨h ++ [getG h a],
      { s with search_space := some h.length,
               scope := some (if truthy scope then scope.getD []
                              else (getG h a).OPTIMIZER_SCOPE) },
      ?_, rfl, ?_, rfl, rfl, rfl, rfl, rfl⟩
    · unfold adapt_search_space
      rw [if_pos hq]
      rfl
    · exact getG_append_self h (getG h a)

/-- Witness for C6 on the concrete queryable search space. -/
theorem C6_witness :
    (getG heapW 0).QUERYABLE = true ∧
    ∃ h2 s2, adapt_search_space heapW initState 0 none = some (h2, s2) ∧
      s2.search_space = some heapW.length ∧ getG h2 heapW.length = getG heapW 0 := by
  obtain ⟨h2, s2, hok, hss, hclone, _⟩ :=
    (C6_adapt_search_space heapW initState 0 none).2 (by decide)
  exact ⟨by decide, h2, s2, hok, hss, hclone⟩

/-- C7: `new_epoch` performs no gradient-based weight training —
`using_step_function` is false, every pre-existing object on the heap is
untouched, and the epoch only records one sampled model (whose
architecture keeps the weights of the stored search space, untrained) and
updates the history. -/
theorem C7_no_weight_training (bench : Benchmark) (rands : Nat → Nat) (h : Heap)
    (s : RandomSearch) (h2 : Heap) (s2 : RandomSearch)
    (hok : new_epoch bench rands h s = some (h2, s2)) :
    using_step_function = false ∧
    (∀ b, b < h.length → getG h2 b = getG h b) ∧
    ∃ m, s2.sampled_archs = s.sampled_archs ++ [m] ∧
      s2.history = update_history s.history m ∧
      ∀ ss, s.search_space = some ss →
        (getG h2 m.arch).weights = (getG h ss).weights := by
  obtain ⟨ss, sc, a2, hss, hsc, hsr, hs2⟩ := new_epoch_spec bench rands h s h2 s2 hok
  obtain ⟨ha2, hframe, hw, hlen⟩ := sample_spec rands h ss sc h2 a2 hsr
  subst hs2
  refine ⟨rfl, hframe,
    { arch := a2, accuracy := bench (getG h2 a2) s.performance_metric s.dataset },
    rfl, rfl, ?_⟩
  intro ss2 hss2
  rw [hss] at hss2
  rw [← Option.some.inj hss2]
  exact hw

/-- Witness for C7 on the concrete one-edge search space. -/
theorem C7_witness :
    using_step_function = false ∧ getG resW.1 0 = getG heapW 0 := by
  obtain ⟨husf, hframe, _⟩ :=
    C7_no_weight_training benchW randsW heapW sW resW.1 resW.2 (by decide)
  exact ⟨husf, hframe 0 (by decide)⟩

/-- C9: sampling never mutates the search space it is given — the clone is
allocated fresh and all discretization passes are applied to the clone
only, so every pre-existing heap object is unchanged; likewise
`adapt_search_space` stores a clone and leaves the caller's object
unchanged. -/
theorem C9_no_search_space_mutation (rands : Nat → Nat) (h : Heap) (a : Nat)
    (sc : List String) (ha : a < h.length) :
    (∀ h2 a2, sample_random_architecture rands h a sc = some (h2, a2) →
      a2 ≠ a ∧ ∀ b, b < h.length → getG h2 b = getG h b) ∧
    (∀ s scope h2 s2, adapt_search_space h s a scope = some (h2, s2) →
      ∀ b, b < h.length → getG h2 b = getG h b) := by
  constructor
  · intro h2 a2 hok
    obtain ⟨ha2, hframe, _, _⟩ := sample_spec rands h a sc h2 a2 hok
    exact ⟨by omega, hframe⟩
  · intro s scope h2 s2 hok
    obtain ⟨_, hh2, _⟩ := adapt_spec h s a scope h2 s2 hok
    intro b hb
    rw [hh2, getG_append_left h _ b hb]

/-- Witness for C9 on the concrete one-edge search space. -/
theorem C9_witness :
    resSampleW.2 ≠ 0 ∧ getG resSampleW.1 0 = getG heapW 0 ∧
    getG resAdaptW.1 0 = getG heapW 0 := by
  have h := C9_no_search_space_mutation randsW heapW 0 ["s1"] (by decide)
  obtain ⟨hne, hframe⟩ := h.1 resSampleW.1 resSampleW.2 (by decide)
  exact ⟨hne, hframe 0 (by decide),
    h.2 initState none resAdaptW.1 resAdaptW.2 (by decide) 0 (by decide)⟩
